import Mathlib

/-!
Verification of the survival training/evaluation core of `utils/core_utils.py`
(multi-modal survival analysis: per-epoch training loop, batch unpacking,
risk transform, censored-survival metrics, fold orchestration).

Modelling conventions:
* Python floats are modelled as rationals (`ℚ`) where the code only moves,
  compares and linearly combines values, and as reals (`ℝ`) where the exact
  analytic form matters (the sigmoid / cumulative-product risk transform).
* A float that may be NaN is modelled by the inductive `RF`.
* Calls into external libraries (`sksurv` metric estimators, the model, the
  optimizer, file I/O) are modelled as oracle parameters; an external call
  that may raise a Python exception is an `Option`-valued oracle, and the
  caller's behaviour under `raise` / `try`-`except` is made explicit with
  `Except PyErr`.
* Tensor `.detach().cpu().numpy()` is modelled by returning plain values;
  side effects (checkpoint saves, log writes) are modelled as event lists.
-/

namespace PIBD

/-- Python exception values that the embedded code can raise. -/
inductive PyErr where
  /-- `raise ValueError(msg, arg)` -/
  | valueError (msg : String) (arg : String)
  /-- `raise NotImplementedError` -/
  | notImplementedError
  /-- an index error from indexing a list out of range -/
  | indexError
  /-- a format tag / batch layout mismatch (Python would fail unpacking the tuple) -/
  | typeMismatch
  /-- an exception propagating out of an unguarded external metric call -/
  | metricFailure
  /-- `torch.load` on a checkpoint file that was never written -/
  | fileNotFound
  deriving DecidableEq

/-! ### Training step: loss assembly (`_train_loop_survival`, lines 386-409)

One batch's scalar loss components as produced by the model forward pass
(`h[1]` = `IB_loss_proxy`, `h[2]` = `proxy_loss`, `h[3]` = `mimin_total`,
`h[4]` = `mimin_loss_total`) together with the survival loss returned by the
external loss function and the batch size `y_disc.shape[0]`. -/
structure SurvBatch where
  lossSurv : ℚ
  ibLossProxy : ℚ
  proxyLoss : ℚ
  miminTotal : ℚ
  miminLossTotal : ℚ
  batchSize : ℕ
  deriving DecidableEq

/-- Line 390: `loss = loss_surv + args.gamma * proxy_loss + IB_loss_proxy
+ args.sigma * (mimin_total + mimin_loss_total)`. -/
def composeLoss (gamma sigma : ℚ) (b : SurvBatch) : ℚ :=
  b.lossSurv + gamma * b.proxyLoss + b.ibLossProxy + sigma * (b.miminTotal + b.miminLossTotal)

/-- The two per-batch observable values of the training loop: the value passed
to `loss.backward()` and the value written to the per-batch log line. -/
structure BatchLog where
  backward : ℚ
  logged : ℚ
  deriving DecidableEq

/-- Lines 386-409 of `_train_loop_survival`, for one batch:
`loss_value = loss.item()` is taken before `loss = loss / y_disc.shape[0]`;
`total_loss += loss_value`; `loss.backward()` uses the divided value; the
log line `"batch: {}, loss: {:.3f}".format(batch_idx, loss.item())` is
emitted after the division, so it records the divided value. -/
def trainLoopAux (gamma sigma : ℚ) : ℚ → List BatchLog → List SurvBatch → ℚ × List BatchLog
  | tot, logs, [] => (tot, logs)
  | tot, logs, b :: rest =>
      let loss := composeLoss gamma sigma b
      let lossValue := loss
      let lossDiv := loss / (b.batchSize : ℚ)
      trainLoopAux gamma sigma (tot + lossValue) (logs ++ [⟨lossDiv, lossDiv⟩]) rest

/-- The per-epoch batch loop of `_train_loop_survival`: returns the running
(unnormalized-accumulated) epoch loss and the per-batch backward/logged pairs. -/
def trainLoop (gamma sigma : ℚ) (batches : List SurvBatch) : ℚ × List BatchLog :=
  trainLoopAux gamma sigma 0 [] batches

lemma trainLoopAux_eq (gamma sigma : ℚ) :
    ∀ (batches : List SurvBatch) (tot : ℚ) (logs : List BatchLog),
      trainLoopAux gamma sigma tot logs batches =
        (tot + (batches.map (composeLoss gamma sigma)).sum,
         logs ++ batches.map (fun b =>
           ⟨composeLoss gamma sigma b / (b.batchSize : ℚ),
            composeLoss gamma sigma b / (b.batchSize : ℚ)⟩)) := by
  intro batches
  induction batches with
  | nil => intro tot logs; simp [trainLoopAux]
  | cons b rest ih =>
      intro tot logs
      simp only [trainLoopAux, ih, List.map_cons, List.sum_cons, Prod.mk.injEq]
      exact ⟨by ring, by simp⟩

/-- C1 (counterexample): the claim that the *unnormalized* total is written to
the per-batch log line is false. Code line 395 reassigns
`loss = loss / y_disc.shape[0]` before line 408-409 log `loss.item()`; for a
single batch of size 2 whose only nonzero component is a survival loss of 2,
the unnormalized total is 2 (and is indeed what is accumulated into the running
epoch loss), but the log line records 1. -/
theorem C1_log_counterexample :
    (trainLoop 1 1 [⟨2, 0, 0, 0, 0, 2⟩]).1 = 2 ∧
    (trainLoop 1 1 [⟨2, 0, 0, 0, 0, 2⟩]).2 = [⟨1, 1⟩] ∧
    ¬ ((1 : ℚ) = 2) := by
  have h := trainLoopAux_eq 1 1 [⟨2, 0, 0, 0, 0, 2⟩] 0 []
  refine ⟨?_, ?_, by norm_num⟩
  · rw [trainLoop, h]; norm_num [composeLoss]
  · rw [trainLoop, h]; simp [composeLoss, BatchLog.mk.injEq]

/-- C1 (amended): for every batch the total loss is assembled as
`survival_loss + gamma * proxy_loss + IB_loss + sigma * (MI_loss_1 + MI_loss_2)`;
the value backpropagated is this total divided by the batch size, and the
unnormalized total is what is accumulated into the running epoch loss — but the
per-batch log line records the batch-size-normalized value (the same value that
is backpropagated), not the unnormalized total. -/
theorem C1_loss_assembly (gamma sigma : ℚ) (batches : List SurvBatch) :
    (trainLoop gamma sigma batches).1 =
      (batches.map (fun b =>
        b.lossSurv + gamma * b.proxyLoss + b.ibLossProxy
          + sigma * (b.miminTotal + b.miminLossTotal))).sum ∧
    (trainLoop gamma sigma batches).2 =
      batches.map (fun b =>
        ⟨composeLoss gamma sigma b / (b.batchSize : ℚ),
         composeLoss gamma sigma b / (b.batchSize : ℚ)⟩) := by
  unfold trainLoop
  rw [trainLoopAux_eq]
  exact ⟨by rw [zero_add]; rfl, by simp⟩

/-! ### Risk transform (`_calculate_risk`, lines 308-322)

The hazard logits tensor `h` (samples × time-bins) is modelled as a list of
rows of reals; `torch.sigmoid`, `torch.cumprod(-, dim=1)` and
`torch.sum(-, dim=1)` are modelled row-wise. `.detach().cpu().numpy()` is
modelled by returning plain values. -/

/-- `torch.sigmoid` elementwise: `1 / (1 + exp (-x))`. -/
noncomputable def sigmoid (x : ℝ) : ℝ := 1 / (1 + Real.exp (-x))

/-- Left-to-right running product with accumulator, the row-wise semantics of
`torch.cumprod(-, dim=1)`. -/
def cumprodAux : ℝ → List ℝ → List ℝ
  | _, [] => []
  | acc, x :: xs => (acc * x) :: cumprodAux (acc * x) xs

/-- Row-wise `torch.cumprod`: entry `j` is the product of entries `0..j`. -/
def cumprod (l : List ℝ) : List ℝ := cumprodAux 1 l

/-- `_calculate_risk` (lines 319-322):
`hazards = torch.sigmoid(h)`; `survival = torch.cumprod(1 - hazards, dim=1)`;
`risk = -torch.sum(survival, dim=1)`; returns `(risk, survival)`. -/
noncomputable def calculateRisk (h : List (List ℝ)) : List ℝ × List (List ℝ) :=
  let hazards := h.map (fun row => row.map sigmoid)
  let survival := hazards.map (fun row => cumprod (row.map (fun p => 1 - p)))
  (survival.map (fun row => -row.sum), survival)

/-- The per-bin survival probability of the spec's words: the cumulative
product of `(1 - hazard)` across bins, left to right, up to bin `j`, where the
per-bin hazard is the elementwise sigmoid of the logit. -/
noncomputable def survivalSpecAt (row : List ℝ) (j : ℕ) : ℝ :=
  ((row.take (j + 1)).map (fun x => 1 - sigmoid x)).prod

/-- The per-sample risk of the spec's words: the negative sum of the per-bin
survival probabilities. -/
noncomputable def riskSpec (row : List ℝ) : ℝ :=
  -((List.range row.length).map (survivalSpecAt row)).sum

lemma cumprodAux_eq (l : List ℝ) :
    ∀ acc : ℝ, cumprodAux acc l =
      (List.range l.length).map (fun j => acc * (l.take (j + 1)).prod) := by
  induction l with
  | nil => intro acc; simp [cumprodAux]
  | cons x xs ih =>
      intro acc
      simp only [cumprodAux, ih (acc * x), List.length_cons, List.range_succ_eq_map,
        List.map_cons, List.map_map]
      congr 1
      · simp
      · apply List.map_congr_left
        intro j _
        simp [Function.comp, List.take_succ_cons, mul_assoc]

lemma cumprod_eq (l : List ℝ) :
    cumprod l = (List.range l.length).map (fun j => (l.take (j + 1)).prod) := by
  simp [cumprod, cumprodAux_eq]

lemma cumprod_length (l : List ℝ) : (cumprod l).length = l.length := by
  simp [cumprod_eq]

lemma cumprod_getD (l : List ℝ) (j : ℕ) (hj : j < l.length) :
    (cumprod l).getD j 0 = (l.take (j + 1)).prod := by
  rw [cumprod_eq, List.getD_eq_getElem _ _ (by simpa using hj)]
  simp

/-- The survival-curve map applied to one row of logits, as `calculateRisk`
computes it. -/
noncomputable def survRow (row : List ℝ) : List ℝ :=
  cumprod ((row.map sigmoid).map (fun p => 1 - p))

lemma calculateRisk_eq (h : List (List ℝ)) :
    calculateRisk h = (h.map (fun row => -(survRow row).sum), h.map survRow) := by
  simp [calculateRisk, survRow, List.map_map, Function.comp]

lemma survRow_eq_map (row : List ℝ) :
    survRow row = cumprod (row.map (fun x => 1 - sigmoid x)) := by
  simp only [survRow, List.map_map]
  rfl

lemma survRow_eq_spec (row : List ℝ) :
    survRow row = (List.range row.length).map (survivalSpecAt row) := by
  rw [survRow_eq_map, cumprod_eq]
  simp only [List.length_map]
  apply List.map_congr_left
  intro j _
  rw [survivalSpecAt, List.map_take]

/-- C2: the risk transform computes per-bin hazards as elementwise sigmoid,
the survival curve as the left-to-right cumulative product of `(1 - hazard)`,
and the per-sample risk as the negative sum of the per-bin survival
probabilities; it returns the pair (risks, survival curves) as plain
(gradient-detached) values. -/
theorem C2_risk_transform (h : List (List ℝ)) :
    calculateRisk h =
      (h.map riskSpec,
       h.map (fun row => (List.range row.length).map (survivalSpecAt row))) := by
  rw [calculateRisk_eq]
  simp only [Prod.mk.injEq]
  constructor
  · apply List.map_congr_left
    intro row _
    rw [riskSpec, survRow_eq_spec]
  · apply List.map_congr_left
    intro row _
    exact survRow_eq_spec row

lemma sigmoid_pos (x : ℝ) : 0 < sigmoid x := by
  have h : (0 : ℝ) < 1 + Real.exp (-x) := by positivity
  exact div_pos one_pos h

lemma sigmoid_lt_one (x : ℝ) : sigmoid x < 1 := by
  have h : (0 : ℝ) < 1 + Real.exp (-x) := by positivity
  rw [sigmoid, div_lt_one h]
  have := Real.exp_pos (-x)
  linarith

lemma one_sub_sigmoid_mem (x : ℝ) : 0 < 1 - sigmoid x ∧ 1 - sigmoid x < 1 := by
  have h1 := sigmoid_pos x
  have h2 := sigmoid_lt_one x
  constructor <;> linarith

lemma unit_prod (l : List ℝ) (hl : ∀ x ∈ l, 0 < x ∧ x < 1) :
    0 < l.prod ∧ l.prod ≤ 1 := by
  induction l with
  | nil => simp
  | cons x xs ih =>
      have hx := hl x (by simp)
      have hxs := ih (fun y hy => hl y (by simp [hy]))
      rw [List.prod_cons]
      constructor
      · exact mul_pos hx.1 hxs.1
      · calc x * xs.prod ≤ 1 * 1 := by
              apply mul_le_mul (le_of_lt hx.2) hxs.2 (le_of_lt hxs.1) zero_le_one
           _ = 1 := by ring

lemma unit_prod_lt_one (l : List ℝ) (hne : l ≠ []) (hl : ∀ x ∈ l, 0 < x ∧ x < 1) :
    l.prod < 1 := by
  cases l with
  | nil => exact absurd rfl hne
  | cons x xs =>
      have hx := hl x (by simp)
      have hxs := unit_prod xs (fun y hy => hl y (by simp [hy]))
      rw [List.prod_cons]
      calc x * xs.prod ≤ x * 1 := by
            apply mul_le_mul_of_nonneg_left hxs.2 (le_of_lt hx.1)
        _ = x := by ring
        _ < 1 := hx.2

lemma survRow_factors (row : List ℝ) :
    ∀ x ∈ row.map (fun x => 1 - sigmoid x), 0 < x ∧ x < 1 := by
  intro x hx
  rcases List.mem_map.mp hx with ⟨y, _, rfl⟩
  exact one_sub_sigmoid_mem y

lemma survRow_length (row : List ℝ) : (survRow row).length = row.length := by
  rw [survRow_eq_map, cumprod_length, List.length_map]

lemma survRow_getD (row : List ℝ) (j : ℕ) (hj : j < row.length) :
    (survRow row).getD j 0 = ((row.map (fun x => 1 - sigmoid x)).take (j + 1)).prod := by
  rw [survRow_eq_map, cumprod_getD _ _ (by simpa using hj)]

lemma survRow_entry_bounds (row : List ℝ) (j : ℕ) (hj : j < row.length) :
    0 < (survRow row).getD j 0 ∧ (survRow row).getD j 0 < 1 := by
  rw [survRow_getD row j hj]
  set fs := row.map (fun x => 1 - sigmoid x) with hfs
  have hfac : ∀ x ∈ fs.take (j + 1), 0 < x ∧ x < 1 :=
    fun x hx => survRow_factors row x (List.take_subset _ _ hx)
  have hne : fs.take (j + 1) ≠ [] := by
    have : (fs.take (j + 1)).length = min (j + 1) fs.length := List.length_take _ _
    intro hcon
    rw [hcon] at this
    simp only [List.length_nil] at this
    have hfl : j < fs.length := by simpa [hfs] using hj
    omega
  exact ⟨(unit_prod _ hfac).1, unit_prod_lt_one _ hne hfac⟩

/-- C3: for every hazard-logits matrix, the survival curve produced by the
risk transform is non-increasing along the time-bin axis and every entry lies
in `[0, 1]` (rows and entries are addressed with `getD`; out-of-range sample
indices give the empty row, making the bound hypothesis unsatisfiable). -/
theorem C3_survival_curve (h : List (List ℝ)) (i j j' : ℕ) (hjj : j ≤ j')
    (hj' : j' < (((calculateRisk h).2).getD i []).length) :
    0 ≤ (((calculateRisk h).2).getD i []).getD j 0 ∧
    (((calculateRisk h).2).getD i []).getD j 0 ≤ 1 ∧
    (((calculateRisk h).2).getD i []).getD j' 0 ≤ (((calculateRisk h).2).getD i []).getD j 0 := by
  have hproj : ((calculateRisk h).2).getD i [] = survRow (h.getD i []) := by
    rw [calculateRisk_eq]
    have : survRow [] = [] := by simp [survRow, cumprod, cumprodAux]
    calc (h.map survRow).getD i [] = (h.map survRow).getD i (survRow []) := by rw [this]
      _ = survRow (h.getD i []) := List.getD_map _ _ _
  rw [hproj] at hj' ⊢
  set row := h.getD i [] with hrow
  have hlen : (survRow row).length = row.length := survRow_length row
  have hj'r : j' < row.length := by rwa [hlen] at hj'
  have hjr : j < row.length := lt_of_le_of_lt hjj hj'r
  have hbj := survRow_entry_bounds row j hjr
  refine ⟨le_of_lt hbj.1, le_of_lt hbj.2, ?_⟩
  rw [survRow_getD row j hjr, survRow_getD row j' hj'r]
  set fs := row.map (fun x => 1 - sigmoid x) with hfs
  have hsplit : fs.take (j' + 1) = fs.take (j + 1) ++ (fs.drop (j + 1)).take (j' - j) := by
    rw [← List.take_add]
    congr 1
    omega
  rw [hsplit, List.prod_append]
  have hfac1 : ∀ x ∈ fs.take (j + 1), 0 < x ∧ x < 1 :=
    fun x hx => survRow_factors row x (List.take_subset _ _ hx)
  have hfac2 : ∀ x ∈ (fs.drop (j + 1)).take (j' - j), 0 < x ∧ x < 1 :=
    fun x hx => survRow_factors row x (List.drop_subset _ _ (List.take_subset _ _ hx))
  have h1 := unit_prod _ hfac1
  have h2 := unit_prod _ hfac2
  calc (fs.take (j + 1)).prod * ((fs.drop (j + 1)).take (j' - j)).prod
      ≤ (fs.take (j + 1)).prod * 1 := by
        apply mul_le_mul_of_nonneg_left h2.2 (le_of_lt h1.1)
    _ = (fs.take (j + 1)).prod := by ring

/-- C3 witness: instantiation at the 1×2 logits matrix `[[0, 0]]`, sample 0,
bins 0 and 1. -/
theorem C3_survival_curve_witness :
    (0 : ℕ) ≤ 1 ∧ 1 < (((calculateRisk [[0, 0]]).2).getD 0 []).length ∧
    (0 ≤ (((calculateRisk [[0, 0]]).2).getD 0 []).getD 0 0 ∧
     (((calculateRisk [[0, 0]]).2).getD 0 []).getD 0 0 ≤ 1 ∧
     (((calculateRisk [[0, 0]]).2).getD 0 []).getD 1 0 ≤
       (((calculateRisk [[0, 0]]).2).getD 0 []).getD 0 0) := by
  have hlen : (((calculateRisk [[0, 0]]).2).getD 0 []).length = 2 := by
    simp [calculateRisk, cumprod, cumprodAux]
  exact ⟨by norm_num, by rw [hlen]; norm_num,
    C3_survival_curve [[0, 0]] 0 0 1 (by norm_num) (by rw [hlen]; norm_num)⟩

lemma unit_sum (l : List ℝ) (hne : l ≠ []) (hl : ∀ x ∈ l, 0 < x ∧ x < 1) :
    0 < l.sum ∧ l.sum < l.length := by
  induction l with
  | nil => exact absurd rfl hne
  | cons x xs ih =>
      have hx := hl x (by simp)
      rw [List.sum_cons, List.length_cons]
      cases xs with
      | nil => simpa using hx
      | cons y ys =>
          have hxs := ih (by simp) (fun z hz => hl z (by simp [List.mem_cons] at hz ⊢; tauto))
          push_cast
          constructor
          · have := hxs.1; linarith
          · have := hxs.2; push_cast at this; linarith

lemma survRow_mem_bounds (row : List ℝ) :
    ∀ s ∈ survRow row, 0 < s ∧ s < 1 := by
  intro s hs
  rw [survRow_eq_map, cumprod_eq] at hs
  rcases List.mem_map.mp hs with ⟨j, hj, rfl⟩
  rcases List.mem_range.mp hj with hjlt
  have hjr : j < row.length := by simpa using hjlt
  have := survRow_entry_bounds row j hjr
  rwa [survRow_getD row j hjr] at this

/-- C10: for every hazard-logits matrix and sample with `K ≥ 1` time-bins, the
per-sample risk score lies strictly in the open interval `(-K, 0)`: each
survival factor is strictly between 0 and 1, so the negative sum of the `K`
per-bin survival probabilities is strictly negative and strictly above `-K`.
(Logits are modelled as reals, so every logit value is finite.) -/
theorem C10_risk_open_interval (h : List (List ℝ)) (i : ℕ) (_hi : i < h.length)
    (hK : 1 ≤ (h.getD i []).length) :
    -(((h.getD i []).length : ℝ)) < ((calculateRisk h).1).getD i 0 ∧
    ((calculateRisk h).1).getD i 0 < 0 := by
  have hproj : ((calculateRisk h).1).getD i 0 = -(survRow (h.getD i [])).sum := by
    rw [calculateRisk_eq]
    have hz : -(survRow []).sum = 0 := by simp [survRow, cumprod, cumprodAux]
    calc (h.map (fun row => -(survRow row).sum)).getD i 0
        = (h.map (fun row => -(survRow row).sum)).getD i (-(survRow []).sum) := by rw [hz]
      _ = -(survRow (h.getD i [])).sum := List.getD_map _ _ _
  rw [hproj]
  set row := h.getD i [] with hrow
  have hlen : (survRow row).length = row.length := survRow_length row
  have hne : survRow row ≠ [] := by
    intro hcon
    rw [hcon] at hlen
    simp only [List.length_nil] at hlen
    omega
  have hsum := unit_sum (survRow row) hne (survRow_mem_bounds row)
  rw [hlen] at hsum
  constructor
  · have := hsum.2; linarith
  · have := hsum.1; linarith

/-- C10 witness: instantiation at the 1×1 logits matrix `[[0]]`, sample 0. -/
theorem C10_risk_open_interval_witness :
    0 < [[(0 : ℝ)]].length ∧ 1 ≤ ([[(0 : ℝ)]].getD 0 []).length ∧
    (-((([[(0 : ℝ)]].getD 0 []).length : ℝ)) < ((calculateRisk [[0]]).1).getD 0 0 ∧
     ((calculateRisk [[0]]).1).getD 0 0 < 0) := by
  exact ⟨by norm_num, by norm_num [List.getD],
    C10_risk_open_interval [[0]] 0 (by norm_num) (by norm_num [List.getD])⟩

/-! ### Metric engine (`_calculate_metrics`, lines 423-495)

Risk scores are floats that may be NaN; they are modelled by `RF`.
The `sksurv` estimators and `Surv.from_arrays` are external calls that may
raise; they are modelled as `Option`-valued oracle parameters. The calls that
the code wraps in `try`/`except` have their `none` case handled locally; the
unguarded call (`concordance_index_censored`, line 457) propagates failure. -/

/-- A float that may be NaN. -/
inductive RF where
  | nan
  | val (q : ℚ)
  deriving DecidableEq

/-- `np.isnan` on one element. -/
def RF.isNaN : RF → Bool
  | .nan => true
  | .val _ => false

/-- `np.argwhere(np.isnan(...))` starting at index `k`: the ascending indices
of the NaN entries. -/
def nanIdxsFrom : ℕ → List RF → List ℕ
  | _, [] => []
  | k, x :: xs => if x.isNaN then k :: nanIdxsFrom (k + 1) xs else nanIdxsFrom (k + 1) xs

/-- `np.delete(l, idxs)` starting at position `k`: drop the entries whose
position is listed in `idxs`. -/
def deleteIdxsFrom (idxs : List ℕ) : ℕ → List α → List α
  | _, [] => []
  | k, x :: xs =>
      if k ∈ idxs then deleteIdxsFrom idxs (k + 1) xs
      else x :: deleteIdxsFrom idxs (k + 1) xs

/-- `np.delete(l, idxs)`. -/
def npDelete (l : List α) (idxs : List ℕ) : List α := deleteIdxsFrom idxs 0 l

/-- Lines 450-455 of `_calculate_metrics`: compute the NaN positions of the
*original* risk-score array and delete those positions from the risk,
censorship and event-time arrays. -/
def nanFilter3 (risks : List RF) (cens times : List ℚ) : List RF × List ℚ × List ℚ :=
  let idxs := nanIdxsFrom 0 risks
  (npDelete risks idxs, npDelete cens idxs, npDelete times idxs)

/-- `(1 - c).astype(bool)`: a censorship value is mapped to the event-occurred
boolean (numpy maps nonzero to `True`). -/
def toEventBool (c : ℚ) : Bool := decide (1 - c ≠ 0)

/-- A numpy value that is either the scalar `0.` fallback or a real result
array (the Brier-score slot of the result tuple has this union type). -/
inductive PyVal where
  | scalar (q : ℚ)
  | array (l : List ℚ)
  deriving DecidableEq

/-- The event/time/estimate arguments handed to the external estimators after
NaN filtering, in the order the code builds them:
`((1-all_censorships).astype(bool), all_event_times, all_risk_scores)`. -/
def filteredArgs (risks : List RF) (cens times : List ℚ) :
    List Bool × List ℚ × List RF :=
  let f := nanFilter3 risks cens times
  (f.2.1.map toEventBool, f.2.2, f.1)

/-- `_calculate_metrics` (lines 423-495). Oracle parameters model the external
`sksurv` calls, with `none` for a raised exception:
`cic` = `concordance_index_censored` (line 457, *not* guarded by `try`),
`survT` = `Surv.from_arrays` (line 462, guarded),
`ipcw` = `concordance_index_ipcw` (line 469, guarded),
`brier` = `brier_score` (line 476, guarded),
`ibs` = `integrated_brier_score` (line 483, guarded),
`auc` = `cumulative_dynamic_auc` (line 490, guarded, called on the estimate
`1 - all_risk_by_bin_scores[:, 1:]` and the times `which_times_to_eval_at[1:]`).
`survivalTrain` is the opaque training survival distribution of type `γ`;
`σ` is the opaque type of `survival_test`. The evaluation times are built from
`data.min()`, `data.max()` and the discretization bins (lines 446-448); the
dataset contract guarantees at least 3 bin boundaries, and `getD` models the
in-range indexing `bins_original[1]`, `bins_original[2]`. -/
def calculateMetrics {γ σ : Type}
    (cic : List Bool → List ℚ → List RF → Option ℚ)
    (survT : List Bool → List ℚ → Option σ)
    (ipcw : γ → σ → List RF → Option ℚ)
    (brier : γ → σ → List (List ℚ) → List ℚ → Option (List ℚ))
    (ibs : γ → σ → List (List ℚ) → List ℚ → Option ℚ)
    (auc : γ → σ → List (List ℚ) → List ℚ → Option ℚ)
    (survivalTrain : γ) (dataMin dataMax : ℚ) (bins : List ℚ)
    (risks : List RF) (cens times : List ℚ) (riskByBin : List (List ℚ)) :
    Except PyErr (ℚ × ℚ × PyVal × ℚ × ℚ) :=
  let whichTimes : List ℚ :=
    [dataMin + 1 / 10000, bins.getD 1 0, bins.getD 2 0, dataMax - 1 / 10000]
  let fa := filteredArgs risks cens times
  match cic fa.1 fa.2.1 fa.2.2 with
  | none => .error .metricFailure
  | some cIndex =>
    match survT fa.1 fa.2.1 with
    | none => .ok (cIndex, 0, .scalar 0, 0, 0)
    | some survivalTest =>
      let cIndexIpcw := (ipcw survivalTrain survivalTest fa.2.2).getD 0
      let bsVal : PyVal :=
        match brier survivalTrain survivalTest riskByBin whichTimes with
        | some bs => .array bs
        | none => .scalar 0
      let ibsVal := (ibs survivalTrain survivalTest riskByBin whichTimes).getD 0
      let aucVal := (auc survivalTrain survivalTest
        (riskByBin.map (fun row => (row.drop 1).map (fun s => 1 - s)))
        (whichTimes.drop 1)).getD 0
      .ok (cIndex, cIndexIpcw, bsVal, ibsVal, aucVal)

/-- C4 (counterexample): the claim that the metric-computation function never
raises and always returns a 5-tuple is false: the standard concordance-index
call on line 457 is outside every `try` block, so when it raises the function
raises. Concretely, `sksurv.metrics.concordance_index_censored` raises on
empty arrays; with the oracle that fails exactly on empty input (and all other
oracles succeeding) and empty input arrays, `_calculate_metrics` propagates
the failure instead of returning a tuple. -/
theorem C4_never_raises_counterexample :
    calculateMetrics (γ := Unit) (σ := Unit)
      (fun e _ _ => if e.isEmpty then none else some 0)
      (fun _ _ => some ()) (fun _ _ _ => some 0) (fun _ _ _ _ => some [0])
      (fun _ _ _ _ => some 0) (fun _ _ _ _ => some 0)
      () 0 0 [0, 0, 0] [] [] [] [] = .error .metricFailure := rfl

/-- C4 (amended): *provided the unguarded standard concordance-index call
succeeds*, the metric-computation function returns a 5-tuple for every input:
when construction of the survival-test structure throws it returns
`(c_index, 0., 0., 0., 0.)` with the standard concordance index still
computed, and otherwise each of the IPCW concordance, Brier score, integrated
Brier score and cumulative dynamic AUC slots is filled independently from its
own guarded call, substituting `0.0` for each step that fails, so a failure in
any one of them does not affect the other metrics. -/
theorem C4_error_isolation {γ σ : Type}
    (cic : List Bool → List ℚ → List RF → Option ℚ)
    (survT : List Bool → List ℚ → Option σ)
    (ipcw : γ → σ → List RF → Option ℚ)
    (brier : γ → σ → List (List ℚ) → List ℚ → Option (List ℚ))
    (ibs : γ → σ → List (List ℚ) → List ℚ → Option ℚ)
    (auc : γ → σ → List (List ℚ) → List ℚ → Option ℚ)
    (survivalTrain : γ) (dataMin dataMax : ℚ) (bins : List ℚ)
    (risks : List RF) (cens times : List ℚ) (riskByBin : List (List ℚ))
    (cIndex : ℚ)
    (hcic : cic (filteredArgs risks cens times).1 (filteredArgs risks cens times).2.1
      (filteredArgs risks cens times).2.2 = some cIndex) :
    (survT (filteredArgs risks cens times).1 (filteredArgs risks cens times).2.1 = none →
      calculateMetrics cic survT ipcw brier ibs auc survivalTrain dataMin dataMax bins
        risks cens times riskByBin = .ok (cIndex, 0, .scalar 0, 0, 0)) ∧
    (∀ st : σ,
      survT (filteredArgs risks cens times).1 (filteredArgs risks cens times).2.1 = some st →
      calculateMetrics cic survT ipcw brier ibs auc survivalTrain dataMin dataMax bins
        risks cens times riskByBin =
        .ok (cIndex,
          (ipcw survivalTrain st (filteredArgs risks cens times).2.2).getD 0,
          (match brier survivalTrain st riskByBin
              [dataMin + 1 / 10000, bins.getD 1 0, bins.getD 2 0, dataMax - 1 / 10000] with
            | some bs => PyVal.array bs
            | none => PyVal.scalar 0),
          (ibs survivalTrain st riskByBin
            [dataMin + 1 / 10000, bins.getD 1 0, bins.getD 2 0, dataMax - 1 / 10000]).getD 0,
          (auc survivalTrain st
            (riskByBin.map (fun row => (row.drop 1).map (fun s => 1 - s)))
            ([dataMin + 1 / 10000, bins.getD 1 0, bins.getD 2 0,
              dataMax - 1 / 10000].drop 1)).getD 0)) := by
  constructor
  · intro hs
    simp only [calculateMetrics]
    rw [hcic, hs]
  · intro st hs
    simp only [calculateMetrics]
    rw [hcic, hs]

/-- C4 witness: instantiation with oracles that succeed, a failing
survival-test construction, and concrete one-sample inputs. -/
theorem C4_error_isolation_witness :
    ((fun (_ : List Bool) (_ : List ℚ) (_ : List RF) => some (1 : ℚ))
        (filteredArgs [RF.val 1] [0] [1]).1 (filteredArgs [RF.val 1] [0] [1]).2.1
        (filteredArgs [RF.val 1] [0] [1]).2.2 = some (1 : ℚ)) ∧
    ((fun (_ : List Bool) (_ : List ℚ) => (none : Option Unit))
        (filteredArgs [RF.val 1] [0] [1]).1 (filteredArgs [RF.val 1] [0] [1]).2.1 = none →
      calculateMetrics (γ := Unit) (σ := Unit)
        (fun _ _ _ => some 1) (fun _ _ => none) (fun _ _ _ => some 0)
        (fun _ _ _ _ => some [0]) (fun _ _ _ _ => some 0) (fun _ _ _ _ => some 0)
        () 0 10 [0, 2, 4] [RF.val 1] [0] [1] [[1, 1]] = .ok (1, 0, .scalar 0, 0, 0)) := by
  refine ⟨rfl, ?_⟩
  exact fun _ =>
    (C4_error_isolation (γ := Unit) (σ := Unit)
      (fun _ _ _ => some 1) (fun _ _ => none) (fun _ _ _ => some 0)
      (fun _ _ _ _ => some [0]) (fun _ _ _ _ => some 0) (fun _ _ _ _ => some 0)
      () 0 10 [0, 2, 4] [RF.val 1] [0] [1] [[1, 1]] 1 rfl).1 rfl

lemma mem_nanIdxsFrom_ge :
    ∀ (l : List RF) (k i : ℕ), i ∈ nanIdxsFrom k l → k ≤ i := by
  intro l
  induction l with
  | nil => intro k i h; simp [nanIdxsFrom] at h
  | cons x xs ih =>
      intro k i h
      simp only [nanIdxsFrom] at h
      by_cases hx : x.isNaN = true
      · rw [if_pos hx] at h
        rcases List.mem_cons.mp h with h' | h'
        · omega
        · exact le_trans (Nat.le_succ k) (ih (k + 1) i h')
      · rw [if_neg hx] at h
        exact le_trans (Nat.le_succ k) (ih (k + 1) i h)

lemma deleteIdxsFrom_nanIdxs {α : Type} :
    ∀ (rs : List RF) (ls : List α) (k : ℕ) (idxs : List ℕ),
      rs.length = ls.length →
      (∀ i, k ≤ i → (i ∈ idxs ↔ i ∈ nanIdxsFrom k rs)) →
      deleteIdxsFrom idxs k ls =
        ((rs.zip ls).filter (fun p => !p.1.isNaN)).map Prod.snd := by
  intro rs
  induction rs with
  | nil =>
      intro ls k idxs hlen _
      cases ls with
      | nil => simp [deleteIdxsFrom]
      | cons x ls' => simp at hlen
  | cons r rs' ih =>
      intro ls k idxs hlen hiff
      cases ls with
      | nil => simp at hlen
      | cons x ls' =>
          have hlen' : rs'.length = ls'.length := by simpa using hlen
          have hk : k ∈ idxs ↔ r.isNaN = true := by
            rw [hiff k le_rfl]
            simp only [nanIdxsFrom]
            by_cases hr : r.isNaN = true
            · rw [if_pos hr]; simp [hr]
            · rw [if_neg hr]
              constructor
              · intro hmem
                exact absurd (mem_nanIdxsFrom_ge _ _ _ hmem) (by omega)
              · intro hcon
                exact absurd hcon hr
          have hiff' : ∀ i, k + 1 ≤ i → (i ∈ idxs ↔ i ∈ nanIdxsFrom (k + 1) rs') := by
            intro i hi
            rw [hiff i (by omega)]
            simp only [nanIdxsFrom]
            by_cases hr : r.isNaN = true
            · rw [if_pos hr, List.mem_cons]
              constructor
              · rintro (rfl | h)
                · omega
                · exact h
              · intro h; exact Or.inr h
            · rw [if_neg hr]
          simp only [deleteIdxsFrom, List.zip_cons_cons, List.filter_cons]
          by_cases hr : r.isNaN = true
          · rw [if_pos (hk.mpr hr), ih ls' (k + 1) idxs hlen' hiff']
            simp [hr]
          · rw [if_neg (fun hmem => hr (hk.mp hmem)), ih ls' (k + 1) idxs hlen' hiff']
            simp [hr]

lemma npDelete_nanIdxs {α : Type} (rs : List RF) (ls : List α)
    (hlen : rs.length = ls.length) :
    npDelete ls (nanIdxsFrom 0 rs) =
      ((rs.zip ls).filter (fun p => !p.1.isNaN)).map Prod.snd :=
  deleteIdxsFrom_nanIdxs rs ls 0 (nanIdxsFrom 0 rs) hlen (fun _ _ => Iff.rfl)

lemma zip_self_filter (rs : List RF) :
    ((rs.zip rs).filter (fun p => !p.1.isNaN)).map Prod.snd =
      rs.filter (fun x => !x.isNaN) := by
  induction rs with
  | nil => rfl
  | cons r rs' ih =>
      simp only [List.zip_cons_cons, List.filter_cons]
      by_cases hr : r.isNaN = true
      · simp [hr, ih]
      · simp [hr, ih]

/-- C5: the NaN filter of `_calculate_metrics` removes every sample whose risk
score is NaN, applying the removal at the same indices to the risk,
censorship and event-time arrays identically (equivalently: it filters the
index-aligned zipped triples by the risk entry being non-NaN); in particular
for risk scores `[0.1, NaN, 0.3]` with any matching length-3 censorship and
time arrays, the downstream arrays all have length 2, with the NaN-indexed
entry removed from each. -/
theorem C5_nan_filtering (risks : List RF) (cens times : List ℚ)
    (c1 c2 c3 t1 t2 t3 : ℚ)
    (h1 : cens.length = risks.length) (h2 : times.length = risks.length) :
    nanFilter3 risks cens times =
      (risks.filter (fun x => !x.isNaN),
       ((risks.zip cens).filter (fun p => !p.1.isNaN)).map Prod.snd,
       ((risks.zip times).filter (fun p => !p.1.isNaN)).map Prod.snd) ∧
    nanFilter3 [RF.val (1 / 10), RF.nan, RF.val (3 / 10)] [c1, c2, c3] [t1, t2, t3] =
      ([RF.val (1 / 10), RF.val (3 / 10)], [c1, c3], [t1, t3]) := by
  constructor
  · simp only [nanFilter3, Prod.mk.injEq]
    refine ⟨?_, ?_, ?_⟩
    · exact (npDelete_nanIdxs risks risks rfl).trans (zip_self_filter risks)
    · exact npDelete_nanIdxs risks cens h1.symm
    · exact npDelete_nanIdxs risks times h2.symm
  · rfl

/-- C5 witness: instantiation at risk scores `[0.1, NaN, 0.3]`, censorship
`[1, 0, 1]` and event times `[10, 20, 30]`. -/
theorem C5_nan_filtering_witness :
    ([(1 : ℚ), 0, 1].length = [RF.val (1 / 10), RF.nan, RF.val (3 / 10)].length) ∧
    ([(10 : ℚ), 20, 30].length = [RF.val (1 / 10), RF.nan, RF.val (3 / 10)].length) ∧
    nanFilter3 [RF.val (1 / 10), RF.nan, RF.val (3 / 10)] [1, 0, 1] [10, 20, 30] =
      ([RF.val (1 / 10), RF.val (3 / 10)], [1, 1], [10, 30]) := by
  refine ⟨rfl, rfl, ?_⟩
  exact ((C5_nan_filtering [RF.val (1 / 10), RF.nan, RF.val (3 / 10)] [1, 0, 1]
    [10, 20, 30] 1 0 1 10 20 30 rfl rfl).2.trans (by norm_num))

/-! ### Batch unpacker (`_unpack_data`, lines 196-262) and forward dispatch

A 1-D tensor is a list of rationals; 2-D tensors are lists of rows. The
`pathways` branch (lines 238-248) iterates samples (`idx`) and per-sample
pathway groups (`idy`); `omic.unsqueeze(0)` turns a group tensor into a
one-row stack, the first sample appends, later samples concatenate along the
batch axis onto the stack at position `idy` (a position past the current list
raises `IndexError` in Python). -/

/-- A 1-D tensor. -/
abbrev Tensor := List ℚ

/-- The inner loop of the `pathways` branch: iterate the groups of sample
`idx`, with `acc` the list of per-group stacks built so far. -/
def pathStepGroups (idx : ℕ) :
    List (List Tensor) → ℕ → List Tensor → Except PyErr (List (List Tensor))
  | acc, _, [] => .ok acc
  | acc, idy, omic :: rest =>
      if idx = 0 then pathStepGroups idx (acc ++ [[omic]]) (idy + 1) rest
      else if h : idy < acc.length then
        pathStepGroups idx (acc.set idy (acc.get ⟨idy, h⟩ ++ [omic])) (idy + 1) rest
      else .error .indexError

/-- The outer loop of the `pathways` branch: iterate samples. -/
def pathLoop : List (List Tensor) → ℕ → List (List Tensor) → Except PyErr (List (List Tensor))
  | acc, _, [] => .ok acc
  | acc, idx, item :: rest =>
      match pathStepGroups idx acc 0 item with
      | .error e => .error e
      | .ok acc2 => pathLoop acc2 (idx + 1) rest

/-- Lines 240-248: stack the jagged per-pathway tensors per group index
across samples. -/
def unpackPathways (samples : List (List Tensor)) : Except PyErr (List (List Tensor)) :=
  pathLoop [] 0 samples

lemma pathStepGroups_zero :
    ∀ (item : List Tensor) (acc : List (List Tensor)) (idy : ℕ),
      pathStepGroups 0 acc idy item = .ok (acc ++ item.map (fun o => [o])) := by
  intro item
  induction item with
  | nil => intro acc idy; simp [pathStepGroups]
  | cons o os ih =>
      intro acc idy
      simp [pathStepGroups, ih]

lemma set_get_append_mid (acc1 : List (List Tensor)) (g : List Tensor)
    (acc2 : List (List Tensor)) (o : Tensor)
    (hlt : acc1.length < (acc1 ++ g :: acc2).length) :
    (acc1 ++ g :: acc2).set acc1.length
        ((acc1 ++ g :: acc2).get ⟨acc1.length, hlt⟩ ++ [o]) =
      acc1 ++ (g ++ [o]) :: acc2 := by
  induction acc1 with
  | nil => rfl
  | cons a acc1' ih =>
      simp only [List.cons_append, List.length_cons, List.set_cons_succ, List.get_cons_succ]
      exact congrArg (a :: ·) (ih (by simp only [List.length_append, List.length_cons]; omega))

lemma pathStepGroups_pos :
    ∀ (item : List Tensor) (acc1 acc2 : List (List Tensor)) (idx : ℕ),
      idx ≠ 0 → acc2.length = item.length →
      pathStepGroups idx (acc1 ++ acc2) acc1.length item =
        .ok (acc1 ++ List.zipWith (fun st om => st ++ [om]) acc2 item) := by
  intro item
  induction item with
  | nil =>
      intro acc1 acc2 idx hidx hlen
      have h2 : acc2 = [] := List.length_eq_zero.mp (by simpa using hlen)
      subst h2
      simp [pathStepGroups]
  | cons o os ih =>
      intro acc1 acc2 idx hidx hlen
      cases acc2 with
      | nil => simp at hlen
      | cons g acc2' =>
          have hlen' : acc2'.length = os.length := by simpa using hlen
          have hlt : acc1.length < (acc1 ++ g :: acc2').length := by simp
          simp only [pathStepGroups]
          rw [if_neg hidx, dif_pos hlt, set_get_append_mid acc1 g acc2' o hlt]
          have hre : acc1 ++ (g ++ [o]) :: acc2' = (acc1 ++ [g ++ [o]]) ++ acc2' := by
            simp
          have hlen1 : acc1.length + 1 = (acc1 ++ [g ++ [o]]).length := by simp
          rw [hre, hlen1, ih (acc1 ++ [g ++ [o]]) acc2' idx hidx hlen']
          simp

lemma pathLoop_pos :
    ∀ (rest : List (List Tensor)) (acc : List (List Tensor)) (idx : ℕ),
      idx ≠ 0 → (∀ s ∈ rest, s.length = acc.length) →
      pathLoop acc idx rest =
        .ok (rest.foldl (fun a item => List.zipWith (fun st om => st ++ [om]) a item) acc) := by
  intro rest
  induction rest with
  | nil => intro acc idx _ _; simp [pathLoop]
  | cons item rest' ih =>
      intro acc idx hidx hlen
      have hstep := pathStepGroups_pos item [] acc idx hidx (hlen item (by simp)).symm
      simp only [List.nil_append, List.length_nil] at hstep
      simp only [pathLoop, hstep]
      have hzlen : ∀ s ∈ rest',
          s.length = (List.zipWith (fun st om => st ++ [om]) acc item).length := by
        intro s hs
        have ha := hlen s (by simp [hs])
        have hb := hlen item (by simp)
        rw [List.length_zipWith]
        omega
      exact ih _ (idx + 1) (by omega) hzlen

/-- The per-group transposed stacking that the spec describes: stack `j` is
the list of the `j`-th pathway-group tensors of the samples, in sample order. -/
def stackedGroups (samples : List (List Tensor)) (g : ℕ) : List (List Tensor) :=
  (List.range g).map (fun j => samples.map (fun s => s.getD j []))

lemma zipWith_append_stacked (samples : List (List Tensor)) (g : ℕ) (s : List Tensor)
    (hs : s.length = g) :
    List.zipWith (fun st om => st ++ [om]) (stackedGroups samples g) s =
      stackedGroups (samples ++ [s]) g := by
  apply List.ext_getElem
  · simp [stackedGroups, hs]
  · intro j h1 h2
    have hj : j < g := by simpa [stackedGroups, hs] using h1
    have hjs : j < s.length := by omega
    simp [stackedGroups, List.getElem_zipWith, List.getElem_map, List.getElem_range]
    rw [List.getElem?_eq_getElem hjs]
    rfl

lemma foldl_zipWith_stacked :
    ∀ (rest : List (List Tensor)) (samples : List (List Tensor)) (g : ℕ),
      (∀ s ∈ rest, s.length = g) →
      rest.foldl (fun a item => List.zipWith (fun st om => st ++ [om]) a item)
        (stackedGroups samples g) = stackedGroups (samples ++ rest) g := by
  intro rest
  induction rest with
  | nil => intro samples g _; simp
  | cons s rest' ih =>
      intro samples g hlen
      simp only [List.foldl_cons]
      rw [zipWith_append_stacked samples g s (hlen s (by simp))]
      rw [ih (samples ++ [s]) g (fun t ht => hlen t (by simp [ht]))]
      simp

lemma map_singleton_stacked (s0 : List Tensor) :
    s0.map (fun o => [o]) = stackedGroups [s0] s0.length := by
  apply List.ext_getElem
  · simp [stackedGroups]
  · intro j h1 h2
    have hj : j < s0.length := by simpa using h1
    simp [stackedGroups]
    rw [List.getElem?_eq_getElem hj]
    rfl

/-- C6: for the `pathways` omics format, the batch unpacker stacks the jagged
per-pathway tensors per group index across samples — the first sample
initializes each group's stack, each later sample is concatenated onto it
along the batch axis — so when every sample carries the same number `g` of
pathway-groups, the result is the list of `g` stacks, stack `j` holding the
`j`-th group tensor of each sample in sample order (hence for 2 samples each
carrying 3 groups of shape (5,), a list of 3 tensors each of shape (2,5)). -/
theorem C6_pathways_stacking (s0 : List Tensor) (rest : List (List Tensor)) (g : ℕ)
    (h0 : s0.length = g) (hrest : ∀ s ∈ rest, s.length = g) :
    unpackPathways (s0 :: rest) = .ok (stackedGroups (s0 :: rest) g) := by
  unfold unpackPathways
  simp only [pathLoop, pathStepGroups_zero s0 [] 0, List.nil_append]
  rw [map_singleton_stacked s0, h0]
  rw [pathLoop_pos rest (stackedGroups [s0] g) 1 (by omega)
    (by intro s hs; simp [stackedGroups, hrest s hs])]
  rw [foldl_zipWith_stacked rest [s0] g hrest]
  simp

/-- C6 witness: 2 samples, each with 3 pathway-groups of shape (5,); the
unpacked omics representation is a list of 3 tensors, each of shape (2,5). -/
theorem C6_pathways_stacking_witness :
    ([[(1 : ℚ), 2, 3, 4, 5], [6, 7, 8, 9, 10], [11, 12, 13, 14, 15]].length = 3) ∧
    (∀ s ∈ [[[(16 : ℚ), 17, 18, 19, 20], [21, 22, 23, 24, 25], [26, 27, 28, 29, 30]]],
      s.length = 3) ∧
    unpackPathways
      [[[(1 : ℚ), 2, 3, 4, 5], [6, 7, 8, 9, 10], [11, 12, 13, 14, 15]],
       [[16, 17, 18, 19, 20], [21, 22, 23, 24, 25], [26, 27, 28, 29, 30]]] =
      .ok [[[(1 : ℚ), 2, 3, 4, 5], [16, 17, 18, 19, 20]],
           [[6, 7, 8, 9, 10], [21, 22, 23, 24, 25]],
           [[11, 12, 13, 14, 15], [26, 27, 28, 29, 30]]] := by
  refine ⟨rfl, by decide, ?_⟩
  have h := C6_pathways_stacking
    [[(1 : ℚ), 2, 3, 4, 5], [6, 7, 8, 9, 10], [11, 12, 13, 14, 15]]
    [[[(16 : ℚ), 17, 18, 19, 20], [21, 22, 23, 24, 25], [26, 27, 28, 29, 30]]]
    3 rfl (by decide)
  rw [h]
  rfl

/-- The `gene` batch layout: `(wsi, omics, y_disc, event_time, censor,
clinical_data_list)` (lines 220-223). -/
structure GeneBatch where
  wsi : List Tensor
  omics : List Tensor
  yDisc : List ℚ
  eventTime : List ℚ
  censor : List ℚ
  clinical : List String

/-- The `groups` batch layout: six omics tensors, then labels and a required
mask (lines 225-236). -/
structure GroupsBatch where
  wsi : List Tensor
  omic1 : List Tensor
  omic2 : List Tensor
  omic3 : List Tensor
  omic4 : List Tensor
  omic5 : List Tensor
  omic6 : List Tensor
  yDisc : List ℚ
  eventTime : List ℚ
  censor : List ℚ
  clinical : List String
  mask : List Tensor

/-- The `pathways` batch layout: `data[1]` is the per-sample jagged list of
pathway-group tensors, `data[6]` the mask tensor whose `[0,0]` entry equal to
1 signals an absent mask (lines 238-255). -/
structure PathwaysBatch where
  wsi : List Tensor
  pathGroups : List (List Tensor)
  yDisc : List ℚ
  eventTime : List ℚ
  censor : List ℚ
  clinical : List String
  maskData : List Tensor

/-- A raw batch, in one of the three layouts. -/
inductive Batch where
  | gene (b : GeneBatch)
  | groups (b : GroupsBatch)
  | pathways (b : PathwaysBatch)

/-- The unpacked omics representation: a single tensor for `gene`, a list of
tensors for `groups`/`pathways`. -/
inductive OmicsData where
  | single (t : List Tensor)
  | multi (ts : List (List Tensor))

/-- The return value of `_unpack_data`. -/
structure Unpacked where
  wsi : List Tensor
  mask : Option (List Tensor)
  yDisc : List ℚ
  eventTime : List ℚ
  censor : List ℚ
  omics : OmicsData
  clinical : List String

/-- `_unpack_data` (lines 196-262): dispatch on the omics-format tag. A tag
that is none of `gene`, `groups`, `pathways` raises
`ValueError('Unsupported omics type:', omics_format)` (line 258). A tag/layout
mismatch would make Python fail while indexing the tuple; it is modelled as
`typeMismatch` (it cannot occur in the orchestrated flow, where the tag and
the loader layout agree). -/
def unpackData (omics_format : String) (data : Batch) : Except PyErr Unpacked :=
  if omics_format = "gene" then
    match data with
    | .gene b => .ok ⟨b.wsi, none, b.yDisc, b.eventTime, b.censor, .single b.omics, b.clinical⟩
    | _ => .error .typeMismatch
  else if omics_format = "groups" then
    match data with
    | .groups b => .ok ⟨b.wsi, some b.mask, b.yDisc, b.eventTime, b.censor,
        .multi [b.omic1, b.omic2, b.omic3, b.omic4, b.omic5, b.omic6], b.clinical⟩
    | _ => .error .typeMismatch
  else if omics_format = "pathways" then
    match data with
    | .pathways b =>
        match unpackPathways b.pathGroups with
        | Except.error e => Except.error e
        | Except.ok stk =>
            Except.ok ⟨b.wsi,
              if (b.maskData.getD 0 []).getD 0 0 = 1 then none else some b.maskData,
              b.yDisc, b.eventTime, b.censor, .multi stk, b.clinical⟩
    | _ => .error .typeMismatch
  else .error (.valueError ("Unsupported omics type:") omics_format)

/-- The model's keyword-argument bag, as assembled by the forward adapters. -/
structure ModelArgs where
  xWsi : List Tensor
  returnAttn : Bool
  y : Option (List ℚ)
  c : Option (List ℚ)
  omicsArgs : List (String × List Tensor)

/-- The numbered keyword arguments of the `groups`/`pathways` branches:
`input_args['x_omic%s' % str(i+1)] = data_omics[i]`. -/
def omicKwargs (ts : List (List Tensor)) : List (String × List Tensor) :=
  (List.range ts.length).map (fun i => ("x_omic" ++ toString (i + 1), ts.getD i []))

/-- `_process_data_and_forward` (lines 264-305), up to the model call: unpack,
then build the keyword arguments (training mode: `y` and `c` are the real
label/censorship tensors). The final else-branch is line 303's
`raise ValueError('Unsupported omics type:', omics_format)`. -/
def processDataAndForward (omics_format : String) (data : Batch) : Except PyErr ModelArgs :=
  match unpackData omics_format data with
  | .error e => .error e
  | .ok u =>
      if omics_format = "gene" then
        match u.omics with
        | .single t => .ok ⟨u.wsi, false, some u.yDisc, some u.censor, [("x_omics", t)]⟩
        | .multi _ => .error .typeMismatch
      else if omics_format = "groups" ∨ omics_format = "pathways" then
        match u.omics with
        | .multi ts => .ok ⟨u.wsi, false, some u.yDisc, some u.censor, omicKwargs ts⟩
        | .single _ => .error .typeMismatch
      else .error (.valueError ("Unsupported omics type:") omics_format)

/-- `torch.zeros_like` on a 2-D tensor. -/
def zeroT (t : List Tensor) : List Tensor := t.map (fun row => row.map (fun _ => 0))

/-- The per-sample body of `_summary` (lines 539-565), up to the model call:
unpack, optionally zero-ablate a modality (`miss == "P"` zeroes the WSI
tensor, `miss == "G"` zeroes every omics tensor), then build the keyword
arguments (evaluation mode: `y` and `c` are `None`). The final else-branch is
line 565's `raise NotImplementedError` — which is unreachable for an unknown
tag, because `_unpack_data` has already raised `ValueError` on line 539. -/
def summaryForward (omics_format : String) (data : Batch) (miss : Option String) :
    Except PyErr ModelArgs :=
  match unpackData omics_format data with
  | .error e => .error e
  | .ok u =>
      let wsi := if miss = some ("P") then zeroT u.wsi else u.wsi
      let omics : OmicsData :=
        if miss = some ("G") then
          match u.omics with
          | .single t => .single (zeroT t)
          | .multi ts => .multi (ts.map zeroT)
        else u.omics
      if omics_format = "gene" then
        match omics with
        | .single t => .ok ⟨wsi, false, none, none, [("x_omics", t)]⟩
        | .multi _ => .error .typeMismatch
      else if omics_format = "groups" ∨ omics_format = "pathways" then
        match omics with
        | .multi ts => .ok ⟨wsi, false, none, none, omicKwargs ts⟩
        | .single _ => .error .typeMismatch
      else .error .notImplementedError

/-- C7: for every omics-format tag that is not one of `gene`, `groups`,
`pathways`, both the training forward path and the evaluation path fail with a
`ValueError` citing the offending tag value (in the evaluation path the
`ValueError` is raised by `_unpack_data` before `_summary`'s own unreachable
`NotImplementedError` branch); nothing in the core catches it. -/
theorem C7_unknown_format_valueerror (omics_format : String) (data : Batch)
    (miss : Option String) (h1 : omics_format ≠ "gene") (h2 : omics_format ≠ "groups")
    (h3 : omics_format ≠ "pathways") :
    processDataAndForward omics_format data =
      .error (.valueError ("Unsupported omics type:") omics_format) ∧
    summaryForward omics_format data miss =
      .error (.valueError ("Unsupported omics type:") omics_format) := by
  have hu : unpackData omics_format data =
      .error (.valueError ("Unsupported omics type:") omics_format) := by
    unfold unpackData
    rw [if_neg h1, if_neg h2, if_neg h3]
  constructor
  · unfold processDataAndForward
    rw [hu]
  · unfold summaryForward
    rw [hu]

/-- C7 witness: the tag `"foo"` with an arbitrary concrete batch, in both
paths. -/
theorem C7_unknown_format_valueerror_witness :
    ("foo" ≠ "gene") ∧ ("foo" ≠ "groups") ∧ ("foo" ≠ "pathways") ∧
    (processDataAndForward ("foo") (Batch.gene ⟨[], [], [], [], [], []⟩) =
       .error (.valueError ("Unsupported omics type:") ("foo")) ∧
     summaryForward ("foo") (Batch.gene ⟨[], [], [], [], [], []⟩) none =
       .error (.valueError ("Unsupported omics type:") ("foo"))) :=
  ⟨by decide, by decide, by decide,
   C7_unknown_format_valueerror ("foo") (Batch.gene ⟨[], [], [], [], [], []⟩) none
     (by decide) (by decide) (by decide)⟩

/-! ### Patient result records (`_summary`, lines 590-599)

The Python dict `patient_results` is modelled as an association list with
Python-dict update semantics (overwriting an existing key keeps its position,
a new key is appended); `case_id = slide_id[:12]` is `String.take 12`. -/

/-- Python dict assignment `d[k] = v`. -/
def dictInsert {R : Type} (d : List (String × R)) (k : String) (v : R) :
    List (String × R) :=
  if d.any (fun p => p.1 == k) then d.map (fun p => if p.1 == k then (k, v) else p)
  else d ++ [(k, v)]

/-- Python dict lookup `d[k]` (as an `Option`). -/
def dictGet {R : Type} (d : List (String × R)) (k : String) : Option R :=
  (d.find? (fun p => p.1 == k)).map (fun p => p.2)

/-- Lines 590-599: for each evaluated sample, in order, write its record under
`case_id = slide_id[:12]`. `rows` pairs each slide id with its fully
assembled record. -/
def buildPatientResults {R : Type} (rows : List (String × R)) : List (String × R) :=
  rows.foldl (fun d row => dictInsert d (row.1.take 12) row.2) []

lemma find?_map_update {R : Type} (k : String) (v : R) :
    ∀ d : List (String × R),
      (d.map (fun p => if p.1 == k then (k, v) else p)).find? (fun p => p.1 == k) =
        if d.any (fun p => p.1 == k) then some (k, v) else none := by
  intro d
  induction d with
  | nil => rfl
  | cons p d' ih =>
      by_cases hp : (p.1 == k) = true
      · simp only [List.map_cons, if_pos hp, List.any_cons, hp, Bool.true_or, if_true]
        rw [List.find?_cons_of_pos _ (by simp)]
      · simp only [List.map_cons, if_neg hp, List.any_cons, hp, Bool.false_or]
        rw [List.find?_cons_of_neg _ (by simp [hp]), ih]

lemma bool_ne_true {b : Bool} (h : ¬ b = true) : b = false := by
  cases b
  · rfl
  · exact absurd rfl h

lemma find?_eq_none_of_any_false {R : Type} (k : String) (d : List (String × R))
    (h : d.any (fun p => p.1 == k) = false) :
    d.find? (fun p => p.1 == k) = none := by
  induction d with
  | nil => rfl
  | cons p d' ih =>
      simp only [List.any_cons, Bool.or_eq_false_iff] at h
      rw [List.find?_cons_of_neg _ (by simp [h.1]), ih h.2]

lemma dictGet_insert_same {R : Type} (d : List (String × R)) (k : String) (v : R) :
    dictGet (dictInsert d k v) k = some v := by
  unfold dictInsert dictGet
  by_cases h : d.any (fun p => p.1 == k) = true
  · rw [if_pos h, find?_map_update, if_pos h]
    rfl
  · rw [if_neg h, List.find?_append, find?_eq_none_of_any_false k d (bool_ne_true h)]
    simp

lemma find?_map_update_other {R : Type} (k k' : String) (v : R) (hne : k' ≠ k) :
    ∀ d : List (String × R),
      (d.map (fun p => if p.1 == k then (k, v) else p)).find? (fun p => p.1 == k') =
        d.find? (fun p => p.1 == k') := by
  intro d
  induction d with
  | nil => rfl
  | cons p d' ih =>
      by_cases hp : (p.1 == k) = true
      · have hpk : p.1 = k := by simpa using hp
        have h1 : ¬((((k, v) : String × R).1 == k') = true) := by
          simp only [beq_iff_eq]
          exact fun hcon => hne hcon.symm
        have h2 : ¬((p.1 == k') = true) := by
          rw [hpk]
          simp only [beq_iff_eq]
          exact fun hcon => hne hcon.symm
        have e1 : List.find? (fun q => q.1 == k')
            (((k, v) : String × R) :: d'.map (fun p => if p.1 == k then (k, v) else p)) =
            List.find? (fun q => q.1 == k')
              (d'.map (fun p => if p.1 == k then (k, v) else p)) :=
          List.find?_cons_of_neg _ h1
        have e2 : List.find? (fun q => q.1 == k') (p :: d') =
            List.find? (fun q => q.1 == k') d' :=
          List.find?_cons_of_neg _ h2
        simp only [List.map_cons, if_pos hp]
        rw [e1, e2]
        exact ih
      · simp only [List.map_cons, if_neg hp]
        by_cases hq : (p.1 == k') = true
        · have e1 : List.find? (fun q => q.1 == k')
              (p :: d'.map (fun p => if p.1 == k then (k, v) else p)) = some p :=
            List.find?_cons_of_pos _ hq
          have e2 : List.find? (fun q => q.1 == k') (p :: d') = some p :=
            List.find?_cons_of_pos _ hq
          rw [e1, e2]
        · have e1 : List.find? (fun q => q.1 == k')
              (p :: d'.map (fun p => if p.1 == k then (k, v) else p)) =
              List.find? (fun q => q.1 == k')
                (d'.map (fun p => if p.1 == k then (k, v) else p)) :=
            List.find?_cons_of_neg _ hq
          have e2 : List.find? (fun q => q.1 == k') (p :: d') =
              List.find? (fun q => q.1 == k') d' :=
            List.find?_cons_of_neg _ hq
          rw [e1, e2]
          exact ih

lemma dictGet_insert_other {R : Type} (d : List (String × R)) (k k' : String) (v : R)
    (hne : k' ≠ k) :
    dictGet (dictInsert d k v) k' = dictGet d k' := by
  unfold dictInsert dictGet
  by_cases h : d.any (fun p => p.1 == k) = true
  · rw [if_pos h, find?_map_update_other k k' v hne]
  · rw [if_neg h, List.find?_append]
    have h1 : ¬((((k, v) : String × R).1 == k') = true) := by
      simp only [beq_iff_eq]
      exact fun hcon => hne hcon.symm
    have h2 : List.find? (fun p => p.1 == k') [((k, v) : String × R)] = none := by
      have e1 : List.find? (fun q => q.1 == k') [((k, v) : String × R)] =
          List.find? (fun q => q.1 == k') [] :=
        List.find?_cons_of_neg _ h1
      rw [e1]
      rfl
    rw [h2]
    cases List.find? (fun p => p.1 == k') d <;> rfl

lemma dictGet_build {R : Type} :
    ∀ (rows : List (String × R)) (k : String),
      dictGet (buildPatientResults rows) k =
        ((rows.reverse).find? (fun row => row.1.take 12 == k)).map (fun row => row.2) := by
  intro rows
  induction rows using List.reverseRecOn with
  | nil => intro k; simp [buildPatientResults, dictGet]
  | append_singleton rows p ih =>
      intro k
      have hfold : buildPatientResults (rows ++ [p]) =
          dictInsert (buildPatientResults rows) (p.1.take 12) p.2 := by
        unfold buildPatientResults
        rw [List.foldl_append]
        simp
      rw [hfold, List.reverse_append]
      simp only [List.reverse_singleton, List.singleton_append]
      by_cases hp : (p.1.take 12 == k) = true
      · have hk : p.1.take 12 = k := by simpa using hp
        have e3 : List.find? (fun row => row.1.take 12 == k) (p :: rows.reverse) = some p :=
          List.find?_cons_of_pos _ hp
        rw [hk, dictGet_insert_same, e3]
        rfl
      · have hk : k ≠ p.1.take 12 := fun hcon => hp (by simp [hcon])
        have e4 : List.find? (fun row => row.1.take 12 == k) (p :: rows.reverse) =
            List.find? (fun row => row.1.take 12 == k) rows.reverse :=
          List.find?_cons_of_neg _ hp
        rw [dictGet_insert_other _ _ _ _ hk, e4]
        exact ih k

/-- C9: each patient-result record is keyed by the first 12 characters of the
slide identifier, and when several slides truncate to the same case id the
record written last overwrites the earlier ones: looking up a case id in the
built mapping returns the record of the *last* row whose truncated slide id
matches. In particular the slide id `"TCGA-AB-1234-01Z-XYZ"` maps to case id
`"TCGA-AB-1234"`, and with two records under that case id the second one
wins. -/
theorem C9_patient_record_keying {R : Type} (rows : List (String × R)) (k : String)
    (r1 r2 : R) :
    dictGet (buildPatientResults rows) k =
      ((rows.reverse).find? (fun row => row.1.take 12 == k)).map (fun row => row.2) ∧
    "TCGA-AB-1234-01Z-XYZ".take 12 = "TCGA-AB-1234" ∧
    dictGet (buildPatientResults
        [("TCGA-AB-1234-01Z-XYZ", r1), ("TCGA-AB-1234-99A-ABC", r2)])
      ("TCGA-AB-1234") = some r2 := by
  refine ⟨dictGet_build rows k, by decide, ?_⟩
  have hs1 : "TCGA-AB-1234-01Z-XYZ".take 12 = "TCGA-AB-1234" := by decide
  have hs2 : "TCGA-AB-1234-99A-ABC".take 12 = "TCGA-AB-1234" := by decide
  have hb : buildPatientResults
      [("TCGA-AB-1234-01Z-XYZ", r1), ("TCGA-AB-1234-99A-ABC", r2)] =
      dictInsert (dictInsert [] ("TCGA-AB-1234-01Z-XYZ".take 12) r1)
        ("TCGA-AB-1234-99A-ABC".take 12) r2 := by
    simp only [buildPatientResults, List.foldl_cons, List.foldl_nil]
  rw [hb, hs1, hs2, dictGet_insert_same]

/-! ### Fold orchestrator (`_step`, lines 621-711)

The model's parameter state after the training step of epoch `i` is an opaque
value `states[i] : M` (training mutates the model in place; `init : M` is the
state before the first epoch, so the state after the last epoch is the last
element of `init :: states`). Evaluation is deterministic in the model state:
`evalFn : M → EvalOut D B` stands for `_summary`, returning the patient
results mapping (`D`), the five metrics (Brier slot type `B`) and the mean
loss. Checkpoint and results persistence are modelled as an event list. -/

/-- The observable outputs of one `_summary` evaluation. -/
structure EvalOut (D B : Type) where
  dict : D
  cindex : ℚ
  ipcw : ℚ
  bs : B
  ibs : ℚ
  iauc : ℚ
  loss : ℚ
  deriving DecidableEq

/-- A persistence side effect of `_step`. -/
inductive FoldEvent (M D : Type) where
  /-- `torch.save(model.state_dict(), "model_best_s{cur}.pth")` (line 672) -/
  | saveBest (m : M)
  /-- `_save_results(cur, results_dict, args)` (line 673) -/
  | saveResults (d : D)
  /-- `torch.save(model.state_dict(), "s_{cur}_checkpoint.pth")` (line 677) -/
  | saveFinal (m : M)
  deriving DecidableEq

/-- The epoch loop of `_step` (lines 649-673): for each epoch, evaluate; if
`val_cindex >= args.max_cindex`, update the best value and best state and
persist the model parameters and the results mapping. Returns the final
`max_cindex`, the state saved in the best checkpoint (if any), and the
accumulated persistence events. -/
def stepLoop {M D B : Type} (evalFn : M → EvalOut D B) :
    ℚ → Option M → List (FoldEvent M D) → List M → ℚ × Option M × List (FoldEvent M D)
  | maxC, best, evs, [] => (maxC, best, evs)
  | maxC, best, evs, m :: rest =>
      let r := evalFn m
      if maxC ≤ r.cindex then
        stepLoop evalFn r.cindex (some m) (evs ++ [.saveBest m, .saveResults r.dict]) rest
      else stepLoop evalFn maxC best evs rest

/-- `_step` (lines 621-711) after the epoch loop: always persist a final
checkpoint of the post-training state (line 677), evaluate it again
(line 679 — this evaluation's results mapping is what is returned), reload
the best checkpoint (lines 694-695; `torch.load` fails if no epoch ever
improved and the best checkpoint was never written), evaluate once more
(line 696), and return the results mapping from the final-state evaluation
together with `(args.max_cindex, ipcw, BS, IBS, iauc, loss)` taken from the
last-run (best-state) evaluation (line 711). -/
def step {M D B : Type} (evalFn : M → EvalOut D B) (init : M) (states : List M)
    (initMax : ℚ) :
    List (FoldEvent M D) × Except PyErr (D × (ℚ × ℚ × B × ℚ × ℚ × ℚ)) :=
  let L := stepLoop evalFn initMax none [] states
  let lastState := (init :: states).getLast (List.cons_ne_nil init states)
  let evs := L.2.2 ++ [.saveFinal lastState]
  let rFinal := evalFn lastState
  match L.2.1 with
  | none => (evs, .error .fileNotFound)
  | some bm =>
      let rBest := evalFn bm
      (evs, .ok (rFinal.dict, (L.1, rBest.ipcw, rBest.bs, rBest.ibs, rBest.iauc, rBest.loss)))

lemma stepLoop_max {M D B : Type} (evalFn : M → EvalOut D B) :
    ∀ (states : List M) (maxC : ℚ) (best : Option M) (evs : List (FoldEvent M D)),
      (stepLoop evalFn maxC best evs states).1 =
        (states.map (fun m => (evalFn m).cindex)).foldl max maxC := by
  intro states
  induction states with
  | nil => intro maxC best evs; rfl
  | cons m rest ih =>
      intro maxC best evs
      simp only [stepLoop, List.map_cons, List.foldl_cons]
      by_cases h : maxC ≤ (evalFn m).cindex
      · rw [if_pos h, ih]
        congr 1
        exact (max_eq_right h).symm
      · rw [if_neg h, ih]
        congr 1
        exact (max_eq_left (le_of_not_le h)).symm

lemma stepLoop_append_one {M D B : Type} (evalFn : M → EvalOut D B) :
    ∀ (xs : List M) (m : M) (maxC : ℚ) (best : Option M) (evs : List (FoldEvent M D)),
      stepLoop evalFn maxC best evs (xs ++ [m]) =
        (if (stepLoop evalFn maxC best evs xs).1 ≤ (evalFn m).cindex then
          ((evalFn m).cindex, some m,
           (stepLoop evalFn maxC best evs xs).2.2 ++
             [.saveBest m, .saveResults (evalFn m).dict])
        else stepLoop evalFn maxC best evs xs) := by
  intro xs
  induction xs with
  | nil =>
      intro m maxC best evs
      simp only [List.nil_append, stepLoop]
  | cons x xs' ih =>
      intro m maxC best evs
      simp only [List.cons_append, stepLoop, List.append_eq]
      by_cases h : maxC ≤ (evalFn x).cindex
      · rw [if_pos h, if_pos h, ih]
      · rw [if_neg h, if_neg h, ih]

/-- C8: the fold orchestrator tracks the best epoch by validation concordance
index with greater-or-equal updates: the tracked best value is the running
maximum of the initial value and all epoch c-indices, and an epoch whose
c-index ties or beats everything before it becomes the new best, persisting
the model parameters and the full patient-results mapping; after all epochs a
final checkpoint is always persisted unconditionally, the best checkpoint is
reloaded, and the evaluation step is re-run once more; the returned tuple
pairs the best concordance with the other metrics (IPCW concordance, Brier,
integrated Brier, AUC, mean loss) from that last-run evaluation of the
reloaded best state. -/
theorem C8_fold_orchestrator {M D B : Type} (evalFn : M → EvalOut D B) (init : M)
    (states : List M) (initMax : ℚ) (bm : M)
    (hb : (stepLoop evalFn initMax none [] states).2.1 = some bm) :
    step evalFn init states initMax =
      ((stepLoop evalFn initMax none [] states).2.2 ++
         [.saveFinal ((init :: states).getLast (List.cons_ne_nil init states))],
       .ok ((evalFn ((init :: states).getLast (List.cons_ne_nil init states))).dict,
         ((stepLoop evalFn initMax none [] states).1,
          (evalFn bm).ipcw, (evalFn bm).bs, (evalFn bm).ibs, (evalFn bm).iauc,
          (evalFn bm).loss))) ∧
    (stepLoop evalFn initMax none [] states).1 =
      (states.map (fun m => (evalFn m).cindex)).foldl max initMax ∧
    (∀ m : M,
      (states.map (fun m => (evalFn m).cindex)).foldl max initMax ≤ (evalFn m).cindex →
      (stepLoop evalFn initMax none [] (states ++ [m])).2.1 = some m ∧
      (stepLoop evalFn initMax none [] (states ++ [m])).2.2 =
        (stepLoop evalFn initMax none [] states).2.2 ++
          [.saveBest m, .saveResults (evalFn m).dict]) ∧
    (∀ states' : List M,
      (step evalFn init states' initMax).1 =
        (stepLoop evalFn initMax none [] states').2.2 ++
          [.saveFinal ((init :: states').getLast (List.cons_ne_nil init states'))]) := by
  refine ⟨?_, stepLoop_max evalFn states initMax none [], ?_, ?_⟩
  · simp only [step]
    rw [hb]
  · intro m hm
    have he := stepLoop_append_one evalFn states m initMax none []
    have hmax := stepLoop_max evalFn states initMax none []
    rw [← hmax] at hm
    rw [he, if_pos hm]
    exact ⟨rfl, rfl⟩
  · intro states'
    simp only [step]
    cases hcase : (stepLoop evalFn initMax none [] states').2.1 <;> simp [hcase]

/-- C8 witness: two epochs with strictly improving validation c-index (states
1 then 2, each evaluating to itself on every field), starting from best 0. -/
theorem C8_fold_orchestrator_witness :
    ((stepLoop (M := ℚ) (D := ℚ) (B := ℚ) (fun m => ⟨m, m, m, m, m, m, m⟩)
        0 none [] [1, 2]).2.1 = some 2) ∧
    (step (M := ℚ) (D := ℚ) (B := ℚ) (fun m => ⟨m, m, m, m, m, m, m⟩) 0 [1, 2] 0 =
       ((stepLoop (fun m => ⟨m, m, m, m, m, m, m⟩) 0 none [] [1, 2]).2.2 ++
          [.saveFinal (([0, 1, 2] : List ℚ).getLast (List.cons_ne_nil 0 [1, 2]))],
        .ok ((2 : ℚ), ((stepLoop (fun m => (⟨m, m, m, m, m, m, m⟩ : EvalOut ℚ ℚ))
            0 none [] [1, 2]).1, 2, 2, 2, 2, 2))) ∧
     (stepLoop (M := ℚ) (D := ℚ) (B := ℚ) (fun m => ⟨m, m, m, m, m, m, m⟩)
         0 none [] [1, 2]).1 =
       (([1, 2] : List ℚ).map (fun m =>
         ((fun m => (⟨m, m, m, m, m, m, m⟩ : EvalOut ℚ ℚ)) m).cindex)).foldl max 0 ∧
     (∀ m : ℚ,
       (([1, 2] : List ℚ).map (fun m =>
         ((fun m => (⟨m, m, m, m, m, m, m⟩ : EvalOut ℚ ℚ)) m).cindex)).foldl max 0 ≤
           ((fun m => (⟨m, m, m, m, m, m, m⟩ : EvalOut ℚ ℚ)) m).cindex →
       (stepLoop (fun m => (⟨m, m, m, m, m, m, m⟩ : EvalOut ℚ ℚ))
           0 none [] ([1, 2] ++ [m])).2.1 = some m ∧
       (stepLoop (fun m => (⟨m, m, m, m, m, m, m⟩ : EvalOut ℚ ℚ))
           0 none [] ([1, 2] ++ [m])).2.2 =
         (stepLoop (fun m => (⟨m, m, m, m, m, m, m⟩ : EvalOut ℚ ℚ))
             0 none [] [1, 2]).2.2 ++
           [.saveBest m, .saveResults ((fun m =>
             (⟨m, m, m, m, m, m, m⟩ : EvalOut ℚ ℚ)) m).dict]) ∧
     (∀ states' : List ℚ,
       (step (fun m => (⟨m, m, m, m, m, m, m⟩ : EvalOut ℚ ℚ)) 0 states' 0).1 =
         (stepLoop (fun m => (⟨m, m, m, m, m, m, m⟩ : EvalOut ℚ ℚ))
             0 none [] states').2.2 ++
           [.saveFinal ((0 :: states').getLast (List.cons_ne_nil 0 states'))])) := by
  have hbw : (stepLoop (M := ℚ) (D := ℚ) (B := ℚ) (fun m => ⟨m, m, m, m, m, m, m⟩)
      0 none [] [1, 2]).2.1 = some 2 := by
    simp only [stepLoop]
    norm_num
  refine ⟨hbw, ?_⟩
  have h := C8_fold_orchestrator (M := ℚ) (D := ℚ) (B := ℚ)
    (fun m => ⟨m, m, m, m, m, m, m⟩) 0 [1, 2] 0 2 hbw
  exact h

end PIBD
